import Mathlib

/-!
Verification of the mqtt2db mapping engine: a shallow embedding of the
topic-pattern matcher, the template (interpolated-name) compiler and
renderer, the value coercion layer, the rule (mapping) compiler, and the
dispatcher timestamp logic, translated from the Rust sources
(src/main.rs, src/interpolate.rs, src/mapping.rs, src/value.rs,
src/config.rs), together with theorems settling the specification claims.

Modelling conventions:
- Rust strings are Lean Strings; scanners work on the character list
  (String.data).  The Rust code mixes regex byte offsets with char
  counts, which coincide on ASCII input; positions here are char indices.
- anyhow::Result becomes Except String; error message texts are
  paraphrased (claims never depend on the exact message).
- usize / u64 / i64 become Nat / Int with explicit 2^64 / 2^63 bounds at
  the points where width matters.
- f64 values are modelled as exact rationals; no claim depends on binary
  floating-point rounding.
-/

namespace Mqtt2db

/-- Topic pattern level, from mapping.rs TopicLevel. -/
inductive TopicLevel where
  | literal (s : String)
  | singleWildcard
  | multiWildcard
deriving DecidableEq, Repr

/-- Level compilation, from mapping.rs TopicLevel::try_from:
"+" and "#" compile to wildcards; any other level containing a
'+' or '#' character is rejected; the rest are literals. -/
def topicLevelTryFrom (s : String) : Except String TopicLevel :=
  if s = "+" then .ok .singleWildcard
  else if s = "#" then .ok .multiWildcard
  else if s.data.contains '+' || s.data.contains '#' then
    .error ("Topic level " ++ s ++ " cannot contain + or #")
  else .ok (.literal s)

/-- Rust str::split on a slash, over the character list: empty segments
are preserved, the empty string yields one empty segment. -/
def splitOnSlash : List Char → List (List Char)
  | [] => [[]]
  | c :: rest =>
    let groups := splitOnSlash rest
    if c = '/' then [] :: groups
    else
      match groups with
      | [] => [[c]]
      | g :: gs => (c :: g) :: gs

/-- Topic splitting as done by both Mapping::try_from and
handle_publish / find_mapping: split("/") on the topic string. -/
def splitTopic (s : String) : List String :=
  (splitOnSlash s.data).map String.mk

/-- Sequential collection of Except results, mirroring Rust
iterator collect over anyhow::Result: first error wins, order kept. -/
def collectExcept (f : α → Except String β) : List α → Except String (List β)
  | [] => .ok []
  | a :: as =>
    match f a with
    | .error e => .error e
    | .ok b =>
      match collectExcept f as with
      | .error e => .error e
      | .ok bs => .ok (b :: bs)

/-- Topic-pattern compilation: the split, per-level parse and the
misplaced-'#' check from mapping.rs Mapping::try_from (lines 84-98). -/
def compileTopicPattern (topic : String) : Except String (List TopicLevel) :=
  match collectExcept topicLevelTryFrom (splitTopic topic) with
  | .error e => .error e
  | .ok levels =>
    let preMulti := levels.takeWhile (fun l => l ≠ TopicLevel.multiWildcard)
    if preMulti.length < levels.length - 1 then
      .error ("Topic " ++ topic ++ " has # wildcard before last topic level")
    else .ok levels

/-- The matcher from main.rs find_mapping (lines 190-209): walk pattern
levels and topic levels in lockstep; MultiWildcard returns success
immediately; after the loop the topic iterator must be exhausted. -/
def topicMatches : List TopicLevel → List String → Bool
  | [], [] => true
  | [], _ :: _ => false
  | .singleWildcard :: ps, _ :: ts => topicMatches ps ts
  | .singleWildcard :: _, [] => false
  | .multiWildcard :: _, _ => true
  | .literal e :: ps, t :: ts => if e = t then topicMatches ps ts else false
  | .literal _ :: _, [] => false

/-- Declarative matching relation written from the specification words
(spec 4.1): used to check the matcher by refinement. -/
inductive MatchesSpec : List TopicLevel → List String → Prop where
  | done : MatchesSpec [] []
  | single (t : String) (ps : List TopicLevel) (ts : List String) :
      MatchesSpec ps ts → MatchesSpec (.singleWildcard :: ps) (t :: ts)
  | multi (ps : List TopicLevel) (ts : List String) :
      MatchesSpec (.multiWildcard :: ps) ts
  | lit (s : String) (ps : List TopicLevel) (ts : List String) :
      MatchesSpec ps ts → MatchesSpec (.literal s :: ps) (s :: ts)

/-- First matching pattern lookup, from main.rs find_mapping. -/
def findMatchingPattern (patterns : List (List TopicLevel)) (topic : String) :
    Option (List TopicLevel) :=
  patterns.find? (fun p => topicMatches p (splitTopic topic))

/-- Template part, from interpolate.rs InterpolatedNamePart. -/
inductive InterpolatedNamePart where
  | literal (s : String)
  | reference (num : Nat)
deriving DecidableEq, Repr

/-- Compiled template, from interpolate.rs InterpolatedName. -/
structure InterpolatedName where
  parts : List InterpolatedNamePart
  nReferences : Nat
deriving DecidableEq, Repr

/-- Digit run starting at char position j, as matched by the \d+ group
of the reference regex. -/
def digitsAt (cs : List Char) (j : Nat) : List Char :=
  (cs.drop j).takeWhile Char.isDigit

/-- Value of a decimal digit run (Rust parse::<usize>; indices in real
configurations are far below the usize overflow bound). -/
def digitsToNat (ds : List Char) : Nat :=
  ds.foldl (fun n c => n * 10 + (c.toNat - '0'.toNat)) 0

/-- One attempt of the reference regex (^|[^\x5c])(\$(\d+)) at start
position i, leftmost-first: the ^ alternative applies only at position 0,
otherwise a non-backslash character must precede the dollar sign.
Returns (group-2 start, group-2 end, digit chars); group 2 ends the whole
match, so the end position is where the scan resumes. -/
def matchTailAt (cs : List Char) (i : Nat) : Option (Nat × Nat × List Char) :=
  match cs.get? i, cs.get? (i + 1) with
  | some c, some d =>
    if c ≠ '\\' ∧ d = '$' then
      let ds := digitsAt cs (i + 2)
      if ds ≠ [] then some (i + 1, i + 2 + ds.length, ds) else none
    else none
  | _, _ => none

/-- The two regex alternatives combined at start position i: the ^
alternative (only at position 0) first, then the non-backslash one. -/
def matchAt (cs : List Char) (i : Nat) : Option (Nat × Nat × List Char) :=
  if i = 0 then
    match cs.get? 0 with
    | some c =>
      if c = '$' then
        let ds := digitsAt cs 1
        if ds ≠ [] then some (0, 1 + ds.length, ds) else matchTailAt cs 0
      else matchTailAt cs 0
    | none => none
  else matchTailAt cs i

/-- Leftmost match of the reference regex at or after position p,
mirroring Regex::captures_iter resuming at p. -/
def findRefMatch (cs : List Char) (p : Nat) : Option (Nat × Nat × List Char) :=
  ((List.range cs.length).drop p).findSome? (fun i => matchAt cs i)

/-- Literal-run cleanup from interpolate.rs: String::replace removes
every backslash from the run. -/
def stripBackslashes (cs : List Char) : List Char :=
  cs.filter (fun c => c ≠ '\\')

/-- The captures_iter loop of InterpolatedName::try_from
(interpolate.rs lines 44-78), fueled: each found match strictly advances
the position, so fuel cs.length + 1 is never exhausted (the fuel-0 branch
is unreachable from the wrapper). -/
def interpolatedNameTryFromAux (cs : List Char) :
    Nat → Nat → List InterpolatedNamePart → Nat →
    Except String (List InterpolatedNamePart × Nat)
  | 0, _, _, _ => .error "internal: scanner fuel exhausted"
  | fuel + 1, pos, acc, nrefs =>
    match findRefMatch cs pos with
    | none =>
      if pos < cs.length then
        .ok (acc ++ [.literal (String.mk (stripBackslashes (cs.drop pos)))], nrefs)
      else .ok (acc, nrefs)
    | some (g2s, g2e, ds) =>
      let acc' :=
        if pos < g2s then
          acc ++ [InterpolatedNamePart.literal
            (String.mk (stripBackslashes ((cs.drop pos).take (g2s - pos))))]
        else acc
      let num := digitsToNat ds
      if num = 0 then .error "Invalid reference number 0"
      else interpolatedNameTryFromAux cs fuel g2e (acc' ++ [.reference num]) (nrefs + 1)

/-- Template compilation, from interpolate.rs InterpolatedName::try_from. -/
def interpolatedNameTryFrom (s : String) : Except String InterpolatedName :=
  match interpolatedNameTryFromAux s.data (s.data.length + 1) 0 [] 0 with
  | .error e => .error e
  | .ok (parts, nrefs) => .ok ⟨parts, nrefs⟩

/-- Template rendering, from interpolate.rs InterpolatedName::interpolate:
a left fold appending literal text or the capture at index num - 1,
failing on an out-of-range reference. -/
def interpolateStep (referenceValues : List String)
    (accum : Except String String) (part : InterpolatedNamePart) :
    Except String String :=
  match accum with
  | .error e => .error e
  | .ok acc =>
    match part with
    | .literal s => .ok (acc ++ s)
    | .reference num =>
      match referenceValues.get? (num - 1) with
      | some v => .ok (acc ++ v)
      | none => .error ("Cannot find reference number " ++ toString num)

/-- The fold of InterpolatedName::interpolate over its parts. -/
def InterpolatedName.interpolate (n : InterpolatedName)
    (referenceValues : List String) : Except String String :=
  n.parts.foldl (interpolateStep referenceValues) (.ok "")

/-- Largest reference index in a template, from mapping.rs find_max_ref. -/
def findMaxRef (name : InterpolatedName) : Nat :=
  name.parts.foldl
    (fun maxRef part =>
      match part with
      | .reference num => if num > maxRef then num else maxRef
      | _ => maxRef)
    0

/-- Declared value type, from value.rs ValueType. -/
inductive ValueType where
  | boolean
  | float
  | signedInteger
  | unsignedInteger
  | text
deriving DecidableEq, Repr

/-- Typed scalar written to the database, from influxdb::Type as used by
value.rs; the f64 payload is modelled as an exact rational. -/
inductive InfluxType where
  | boolean (b : Bool)
  | float (v : Rat)
  | signedInteger (v : Int)
  | unsignedInteger (v : Nat)
  | text (s : String)
deriving DecidableEq, Repr

/-- serde_json::Number: parsing stores non-negative integers as u64
(uint, with n < 2^64 by construction), negative integers as i64 (int,
with -2^63 <= i < 0 by construction), everything else as f64 (float,
modelled as an exact rational). -/
inductive JsonNumber where
  | uint (n : Nat)
  | int (i : Int)
  | float (q : Rat)
deriving DecidableEq, Repr

/-- serde_json::Value. -/
inductive Json where
  | null
  | bool (b : Bool)
  | num (n : JsonNumber)
  | str (s : String)
  | arr (elems : List Json)
  | obj (fields : List (String × Json))

/-- Number::as_u64: only the u64 (non-negative integer) variant converts. -/
def JsonNumber.asU64 : JsonNumber → Option Nat
  | .uint n => some n
  | .int _ => none
  | .float _ => none

/-- Number::as_i64: a u64 converts when it fits in i64; the i64 variant
always converts; an f64 never does. -/
def JsonNumber.asI64 : JsonNumber → Option Int
  | .uint n => if n ≤ 2 ^ 63 - 1 then some (n : Int) else none
  | .int i => some i
  | .float _ => none

/-- Number::as_f64: every serde_json number converts (here exactly,
since floats are modelled as rationals). -/
def JsonNumber.asF64 : JsonNumber → Option Rat
  | .uint n => some (n : Rat)
  | .int i => some (i : Rat)
  | .float q => some q

/-- Number display, used when coercing a numeric node to Text.  The
exact float formatting differs from Rust; no claim depends on it. -/
def JsonNumber.toStr : JsonNumber → String
  | .uint n => toString n
  | .int i => toString i
  | .float q => toString q

/-- Rust u64::from_str: an optional leading plus sign, then one or more
decimal digits; a minus sign is rejected; overflow past u64::MAX fails. -/
def parseU64 (s : String) : Option Nat :=
  let cs := match s.data with
    | '+' :: rest => rest
    | cs => cs
  if cs ≠ [] ∧ cs.all Char.isDigit then
    let n := digitsToNat cs
    if n < 2 ^ 64 then some n else none
  else none

/-- Rust i64::from_str: an optional sign, then one or more decimal
digits, within the i64 range. -/
def parseI64 (s : String) : Option Int :=
  let (neg, cs) : Bool × List Char := match s.data with
    | '+' :: rest => (false, rest)
    | '-' :: rest => (true, rest)
    | cs => (false, cs)
  if cs ≠ [] ∧ cs.all Char.isDigit then
    let n := digitsToNat cs
    let v : Int := if neg then -(n : Int) else (n : Int)
    if -(2 ^ 63) ≤ v ∧ v ≤ 2 ^ 63 - 1 then some v else none
  else none

/-- Exponent-part helper for the float grammar. -/
def applyExp (base : Rat) : Bool → Nat → Rat
  | false, e => base * (10 : Rat) ^ e
  | true, e => base / (10 : Rat) ^ e

/-- Rust f64::from_str on finite decimal input: an optional sign, a
digit sequence with an optional fractional part (at least one digit
overall), and an optional decimal exponent.  The special forms inf and
NaN have no rational counterpart and are outside the model; values are
exact, not rounded to binary. -/
def parseF64 (s : String) : Option Rat :=
  let (neg, cs) : Bool × List Char := match s.data with
    | '+' :: rest => (false, rest)
    | '-' :: rest => (true, rest)
    | cs => (false, cs)
  let intPart := cs.takeWhile Char.isDigit
  let rest := cs.drop intPart.length
  let (fracPart, rest) : List Char × List Char := match rest with
    | '.' :: r => (r.takeWhile Char.isDigit, r.drop (r.takeWhile Char.isDigit).length)
    | r => ([], r)
  if intPart = [] ∧ fracPart = [] then none
  else
    let mantissa : Rat :=
      (digitsToNat intPart : Rat) +
        (digitsToNat fracPart : Rat) / (10 : Rat) ^ fracPart.length
    let signed := if neg then -mantissa else mantissa
    match rest with
    | [] => some signed
    | e :: r =>
      if e = 'e' ∨ e = 'E' then
        let (eneg, ds) : Bool × List Char := match r with
          | '+' :: r2 => (false, r2)
          | '-' :: r2 => (true, r2)
          | r2 => (false, r2)
        if ds ≠ [] ∧ ds.all Char.isDigit then
          some (applyExp signed eneg (digitsToNat ds))
        else none
      else none

/-- String-source coercion, from value.rs impl ToInfluxType for String. -/
def strToInfluxType (s : String) (valueType : ValueType) :
    Except String InfluxType :=
  match valueType with
  | .boolean =>
    if s = "true" then .ok (.boolean true)
    else if s = "false" then .ok (.boolean false)
    else .error ("Value " ++ s ++ " is not a valid boolean")
  | .float =>
    match parseF64 s with
    | some v => .ok (.float v)
    | none => .error "invalid float literal"
  | .signedInteger =>
    match parseI64 s with
    | some v => .ok (.signedInteger v)
    | none => .error "invalid digit found in string"
  | .unsignedInteger =>
    match parseU64 s with
    | some v => .ok (.unsignedInteger v)
    | none => .error "invalid digit found in string"
  | .text => .ok (.text s)

/-- Node-source coercion, from value.rs impl ToInfluxType for JsonValue. -/
def Json.toInfluxType (j : Json) (valueType : ValueType) :
    Except String InfluxType :=
  match valueType, j with
  | .boolean, .bool true => .ok (.boolean true)
  | .boolean, .bool false => .ok (.boolean false)
  | .float, .num n =>
    match n.asF64 with
    | some v => .ok (.float v)
    | none => .error "Cannot be expressed as f64"
  | .signedInteger, .num n =>
    match n.asI64 with
    | some v => .ok (.signedInteger v)
    | none => .error "Cannot be expressed as i64"
  | .unsignedInteger, .num n =>
    match n.asU64 with
    | some v => .ok (.unsignedInteger v)
    | none => .error "Cannot be expressed as u64"
  | .text, .str s => .ok (.text s)
  | .text, .bool b => .ok (.text (toString b))
  | .text, .num n => .ok (.text n.toStr)
  | _, _ => .error "Unable to parse value from JSON"

/-- A compiled jsonpath selector, represented by its find behaviour
(the stream of matching nodes in document order).  The jsonpath crate
that parses and evaluates path expressions is an external dependency;
only the first result is ever consumed. -/
def JsonSelector : Type := Json → List Json

/-- Config-level tag value, from config.rs TagValue. -/
structure ConfigTagValue where
  type : ValueType
  value : String

/-- Config-level payload spec, from config.rs Payload.  Selector
construction (jsonpath Selector::new) lives in the external crate and is
modelled as an already-compiled selector. -/
inductive ConfigPayload where
  | json (valueFieldSelector : JsonSelector)
         (timestampFieldSelector : Option JsonSelector)

/-- Config-level mapping, from config.rs Mapping.  The tags HashMap is
modelled as an association list (iteration order does not matter to any
claim). -/
structure ConfigMapping where
  topic : String
  payload : Option ConfigPayload
  fieldName : String
  valueType : ValueType
  tags : List (String × ConfigTagValue)

/-- Compiled tag value, from mapping.rs TagValue. -/
inductive TagValue where
  | interpolatedStr (name : InterpolatedName)
  | literal (v : InfluxType)

/-- Compiled payload spec, from mapping.rs Payload. -/
inductive PayloadSpec where
  | raw
  | json (valueFieldSelector : JsonSelector)
         (timestampFieldSelector : Option JsonSelector)

/-- Compiled mapping, from mapping.rs Mapping. -/
structure Mapping where
  topic : List TopicLevel
  payload : PayloadSpec
  fieldName : InterpolatedName
  valueType : ValueType
  tags : List (String × TagValue)

/-- Tag-value compilation, from mapping.rs TagValue::try_from: a Text
tag whose template is a single literal part becomes a fixed literal,
any other Text template stays interpolated, and non-Text tags coerce
their value string immediately. -/
def tagValueTryFrom (tagValue : ConfigTagValue) : Except String TagValue :=
  match tagValue.type with
  | .text =>
    match interpolatedNameTryFrom tagValue.value with
    | .error e => .error e
    | .ok interp =>
      match interp.parts with
      | [InterpolatedNamePart.literal l] => .ok (.literal (.text l))
      | _ => .ok (.interpolatedStr interp)
  | other =>
    match strToInfluxType tagValue.value other with
    | .ok v => .ok (.literal v)
    | .error e => .error e

/-- Per-tag step of Mapping::try_from (mapping.rs lines 131-144): an
interpolated tag whose largest reference exceeds the single-wildcard
count is a configuration error. -/
def compileTag (maxInterpRef : Nat) (tag : String × ConfigTagValue) :
    Except String (String × TagValue) :=
  match tagValueTryFrom tag.2 with
  | .ok (TagValue.interpolatedStr name) =>
    if findMaxRef name > maxInterpRef then
      .error "tag value has invalid references"
    else .ok (tag.1, TagValue.interpolatedStr name)
  | .ok v => .ok (tag.1, v)
  | .error e => .error e

/-- Rule compilation, from mapping.rs Mapping::try_from: compile the
topic pattern, count its single wildcards, compile and validate the
field-name template against that count, adopt the payload spec, then
compile and validate every tag. -/
def mappingTryFrom (cfg : ConfigMapping) : Except String Mapping :=
  match compileTopicPattern cfg.topic with
  | .error e => .error e
  | .ok topic =>
    let maxInterpRef :=
      (topic.filter (fun l => l = TopicLevel.singleWildcard)).length
    match interpolatedNameTryFrom cfg.fieldName with
    | .error e => .error e
    | .ok name =>
      if findMaxRef name > maxInterpRef then
        .error "field name has invalid references"
      else
        let payload := match cfg.payload with
          | none => PayloadSpec.raw
          | some (ConfigPayload.json v t) => PayloadSpec.json v t
        match collectExcept (compileTag maxInterpRef) cfg.tags with
        | .error e => .error e
        | .ok tags => .ok ⟨topic, payload, name, cfg.valueType, tags⟩

/-- Capture derivation, from main.rs handle_publish (lines 121-129):
zip the split topic with the pattern and keep the topic level wherever
the pattern level is a single wildcard. -/
def referenceValues (pattern : List TopicLevel) (levels : List String) :
    List String :=
  (levels.zip pattern).filterMap
    (fun pair =>
      match pair.2 with
      | TopicLevel.singleWildcard => some pair.1
      | _ => none)

/-- Capture list as the specification words it (spec 4.1): the topic
levels at the SingleWildcard positions of the pattern, in pattern order. -/
def capturesSpec (pattern : List TopicLevel) (levels : List String) :
    List String :=
  (List.range pattern.length).filterMap
    (fun i =>
      match pattern.get? i with
      | some TopicLevel.singleWildcard => levels.get? i
      | _ => none)

/-- JsonValue::as_u64 on a value node: numeric nodes defer to the
number's as_u64, everything else is not a u64. -/
def Json.asU64node : Json → Option Nat
  | .num n => n.asU64
  | _ => none

/-- Timestamp extraction, from main.rs handle_publish (lines 144-156):
no configured selector yields no timestamp; a configured selector must
find a node and the node must convert via as_u64. -/
def extractTimestamp (sel : Option JsonSelector) (root : Json) :
    Except String (Option Nat) :=
  match sel with
  | none => .ok none
  | some selector =>
    match (selector root).head? with
    | none => .error "Cannot find timestamp in payload"
    | some node =>
      match node.asU64node with
      | some ts => .ok (some ts)
      | none => .error "cannot be converted to a timestamp"

/-- Value and timestamp production, from main.rs handle_publish
(lines 134-159): a raw rule coerces the UTF-8 payload directly and has
no timestamp; a JSON rule parses the payload (the serde_json parser is
external and passed as a function), takes the first node the value
selector finds, coerces it, and extracts the optional timestamp. -/
def payloadValueTimestamp (m : Mapping) (payload : String)
    (parseJson : String → Except String Json) :
    Except String (InfluxType × Option Nat) :=
  match m.payload with
  | .raw =>
    match strToInfluxType payload m.valueType with
    | .ok v => .ok (v, none)
    | .error e => .error e
  | .json valueSel timestampSel =>
    match parseJson payload with
    | .error e => .error ("Failed to parse payload as JSON: " ++ e)
    | .ok root =>
      match (valueSel root).head? with
      | none => .error "Cannot find value in payload"
      | some node =>
        match node.toInfluxType m.valueType with
        | .error e => .error e
        | .ok v =>
          match extractTimestamp timestampSel root with
          | .error e => .error e
          | .ok ts => .ok (v, ts)

/-- Wall-clock substitution, from main.rs handle_publish (lines
161-165): a missing extracted timestamp is replaced by the current time. -/
def dispatchTimestamp (extracted : Option Nat) (now : Nat) : Nat :=
  extracted.getD now

/-- Success test on Except results. -/
def isOkE : Except ε α → Bool
  | .ok _ => true
  | .error _ => false

end Mqtt2db

deriving instance DecidableEq for Except

namespace Mqtt2db

/-! ## Topic matching (C1) -/

/-- The lockstep matcher agrees with the declarative matching relation. -/
theorem topicMatches_iff (p : List TopicLevel) (t : List String) :
    topicMatches p t = true ↔ MatchesSpec p t := by
  induction p generalizing t with
  | nil =>
    cases t with
    | nil => exact ⟨fun _ => .done, fun _ => rfl⟩
    | cons a as =>
      exact ⟨fun h => by simp [topicMatches] at h, fun hm => nomatch hm⟩
  | cons l ps ih =>
    cases l with
    | singleWildcard =>
      cases t with
      | nil => exact ⟨fun h => by simp [topicMatches] at h, fun hm => nomatch hm⟩
      | cons a as =>
        constructor
        · intro h
          exact .single a ps as ((ih as).1 h)
        · intro hm
          cases hm with
          | single _ _ _ hs => exact (ih as).2 hs
    | multiWildcard =>
      exact ⟨fun _ => .multi ps t, fun _ => rfl⟩
    | literal s =>
      cases t with
      | nil => exact ⟨fun h => by simp [topicMatches] at h, fun hm => nomatch hm⟩
      | cons a as =>
        by_cases hs : s = a
        · subst hs
          constructor
          · intro h
            simp [topicMatches] at h
            exact .lit s ps as ((ih as).1 h)
          · intro hm
            cases hm with
            | lit _ _ _ hrec => simp [topicMatches]; exact (ih as).2 hrec
        · constructor
          · intro h
            simp [topicMatches, hs] at h
          · intro hm
            cases hm with
            | lit _ _ _ _ => exact absurd rfl hs

/-- C1: the compiled matcher walks pattern and topic levels in lockstep:
a SingleWildcard consumes exactly one existing topic level of any content
and fails when none remains; a MultiWildcard succeeds immediately for any
remaining topic levels, including none; a Literal level needs an existing
equal topic level; and an exhausted pattern with topic levels left over
fails.  Equivalently, the matcher accepts exactly the declarative
lockstep relation. -/
theorem c1_topic_match_lockstep :
    (∀ p t, topicMatches p t = true ↔ MatchesSpec p t) ∧
    (∀ ps t ts, topicMatches (.singleWildcard :: ps) (t :: ts) =
      topicMatches ps ts) ∧
    (∀ ps, topicMatches (.singleWildcard :: ps) [] = false) ∧
    (∀ ps ts, topicMatches (.multiWildcard :: ps) ts = true) ∧
    (∀ e ps t ts, topicMatches (.literal e :: ps) (t :: ts) =
      if e = t then topicMatches ps ts else false) ∧
    (∀ e ps, topicMatches (.literal e :: ps) [] = false) ∧
    (∀ t ts, topicMatches [] (t :: ts) = false) := by
  refine ⟨topicMatches_iff, fun _ _ _ => rfl, fun _ => rfl, ?_,
    fun _ _ _ _ => rfl, fun _ _ => rfl, fun _ _ => rfl⟩
  intro ps ts
  cases ts <;> rfl

/-! ## Captures (C4) -/

/-- Unfolding of the spec-side capture list over a cons cell. -/
theorem capturesSpec_cons (l : TopicLevel) (ps : List TopicLevel)
    (t : String) (ts : List String) :
    capturesSpec (l :: ps) (t :: ts) =
      (match l with
        | TopicLevel.singleWildcard => [t]
        | _ => []) ++ capturesSpec ps ts := by
  unfold capturesSpec
  simp only [List.length_cons]
  rw [List.range_succ_eq_map, List.filterMap_cons, List.filterMap_map]
  have htail :
      List.filterMap
        ((fun i =>
          match (l :: ps).get? i with
          | some TopicLevel.singleWildcard => (t :: ts).get? i
          | _ => none) ∘ Nat.succ)
        (List.range ps.length) =
      List.filterMap
        (fun i =>
          match ps.get? i with
          | some TopicLevel.singleWildcard => ts.get? i
          | _ => none)
        (List.range ps.length) := by
    apply congrArg (fun f => List.filterMap f (List.range ps.length))
    funext i
    rfl
  rw [htail]
  cases l <;> simp

/-- The spec-side capture list over an empty topic is empty. -/
theorem capturesSpec_nil_topic (p : List TopicLevel) :
    capturesSpec p ([] : List String) = [] := by
  unfold capturesSpec
  rw [List.eq_nil_iff_forall_not_mem]
  intro s hs
  rw [List.mem_filterMap] at hs
  obtain ⟨i, _, hi⟩ := hs
  revert hi
  cases p.get? i with
  | none => intro h; exact nomatch h
  | some l =>
    cases l <;> intro h <;> simp at h

/-- The code-side capture derivation (zip + filterMap of handle_publish)
computes precisely the spec-side capture list. -/
theorem referenceValues_eq_capturesSpec (p : List TopicLevel)
    (t : List String) : referenceValues p t = capturesSpec p t := by
  induction p generalizing t with
  | nil =>
    cases t <;> simp [referenceValues, capturesSpec]
  | cons l ps ih =>
    cases t with
    | nil =>
      rw [capturesSpec_nil_topic]
      simp [referenceValues]
    | cons a as =>
      rw [capturesSpec_cons]
      have hz : referenceValues (l :: ps) (a :: as) =
          (match l with
            | TopicLevel.singleWildcard => [a]
            | _ => []) ++ referenceValues ps as := by
        cases l <;> simp [referenceValues]
      rw [hz, ih as]

/-- C4: for a matching topic, the derived capture list is exactly the
topic levels at SingleWildcard positions in pattern order (MultiWildcard
contributing none); concretely both spec examples compute to ["X"]. -/
theorem c4_captures :
    (∀ p t, topicMatches p t = true → referenceValues p t = capturesSpec p t) ∧
    compileTopicPattern "foo/+/bar" =
      .ok [.literal "foo", .singleWildcard, .literal "bar"] ∧
    referenceValues [.literal "foo", .singleWildcard, .literal "bar"]
      (splitTopic "foo/X/bar") = ["X"] ∧
    compileTopicPattern "foo/+/bar/#" =
      .ok [.literal "foo", .singleWildcard, .literal "bar", .multiWildcard] ∧
    referenceValues
      [.literal "foo", .singleWildcard, .literal "bar", .multiWildcard]
      (splitTopic "foo/X/bar/a/b") = ["X"] := by
  exact ⟨fun p t _ => referenceValues_eq_capturesSpec p t,
    by decide, by decide, by decide, by decide⟩

/-- C4 witness: the general part instantiated on the first spec example. -/
theorem c4_captures_witness :
    referenceValues [.literal "foo", .singleWildcard, .literal "bar"]
      ["foo", "X", "bar"] =
    capturesSpec [.literal "foo", .singleWildcard, .literal "bar"]
      ["foo", "X", "bar"] :=
  c4_captures.1 [.literal "foo", .singleWildcard, .literal "bar"]
    ["foo", "X", "bar"] (by decide)

/-! ## Template compilation (C2, C3) -/

/-- The non-anchored regex alternative finds nothing in dollar-free text. -/
theorem matchTailAt_eq_none (cs : List Char) (i : Nat)
    (h : ∀ c ∈ cs, c ≠ '$') : matchTailAt cs i = none := by
  unfold matchTailAt
  cases hci : cs.get? i with
  | none => rfl
  | some c =>
    cases hcd : cs.get? (i + 1) with
    | none => rfl
    | some d =>
      have hd : d ≠ '$' := h d (List.get?_mem hcd)
      simp [hd]

/-- The reference regex finds nothing in dollar-free text. -/
theorem matchAt_eq_none (cs : List Char) (i : Nat)
    (h : ∀ c ∈ cs, c ≠ '$') : matchAt cs i = none := by
  unfold matchAt
  by_cases hi : i = 0
  · subst hi
    cases hc0 : cs.get? 0 with
    | none => simp
    | some c =>
      have hc : c ≠ '$' := h c (List.get?_mem hc0)
      simp [hc0, hc, matchTailAt_eq_none cs 0 h]
  · simp [hi, matchTailAt_eq_none cs i h]

/-- The scan finds no reference in dollar-free text. -/
theorem findRefMatch_eq_none (cs : List Char) (p : Nat)
    (h : ∀ c ∈ cs, c ≠ '$') : findRefMatch cs p = none := by
  unfold findRefMatch
  rw [List.findSome?_eq_none_iff]
  intro i _
  exact matchAt_eq_none cs i h

/-- Dollar-free nonempty input compiles to a single literal part with
every backslash removed. -/
theorem tryFrom_dollar_free (s : String) (hne : s.data ≠ [])
    (h : ∀ c ∈ s.data, c ≠ '$') :
    interpolatedNameTryFrom s =
      .ok ⟨[.literal (String.mk (stripBackslashes s.data))], 0⟩ := by
  unfold interpolatedNameTryFrom
  have hlen : 0 < s.data.length := List.length_pos.mpr hne
  have hlen2 : 0 < s.length := hlen
  simp [interpolatedNameTryFromAux, findRefMatch_eq_none s.data 0 h, hlen,
    hlen2]

/-- C2 counterexample: adjacent references do not both compile; the
character before the second dollar sign was consumed by the first match,
so "$1$2" compiles to a reference followed by the literal text "$2",
not to two references as the claim states. -/
theorem c2_adjacent_refs_counterexample :
    interpolatedNameTryFrom "$1$2" =
      .ok ⟨[.reference 1, .literal "$2"], 1⟩ ∧
    (Except.ok (⟨[.reference 1, .literal "$2"], 1⟩ : InterpolatedName) :
        Except String InterpolatedName) ≠
      .ok ⟨[.reference 1, .reference 2], 2⟩ := by
  exact ⟨by decide, by decide⟩

/-- C2 (amended): an unescaped dollar sign followed by digits is a
Reference when it sits at the start of the template or directly after a
non-backslash character not consumed by a preceding reference match;
directly after a reference it is literal text, so "$1$2" gives
[Reference 1, Literal "$2"]; a dollar sign not followed by digits is
literal text; and reference index 0 is a compile error. -/
theorem c2_reference_recognition :
    interpolatedNameTryFrom "$1" = .ok ⟨[.reference 1], 1⟩ ∧
    interpolatedNameTryFrom "a$1" = .ok ⟨[.literal "a", .reference 1], 1⟩ ∧
    interpolatedNameTryFrom "$23" = .ok ⟨[.reference 23], 1⟩ ∧
    interpolatedNameTryFrom "$1$2" =
      .ok ⟨[.reference 1, .literal "$2"], 1⟩ ∧
    interpolatedNameTryFrom "$1a$2" =
      .ok ⟨[.reference 1, .literal "a", .reference 2], 2⟩ ∧
    interpolatedNameTryFrom "a$b" = .ok ⟨[.literal "a$b"], 0⟩ ∧
    interpolatedNameTryFrom "$" = .ok ⟨[.literal "$"], 0⟩ ∧
    isOkE (interpolatedNameTryFrom "$0") = false ∧
    isOkE (interpolatedNameTryFrom "a$0") = false := by
  refine ⟨by decide, by decide, by decide, by decide, by decide,
    by decide, by decide, by decide, by decide⟩

/-- C3 counterexample: a backslash not preceding a dollar sign is also
stripped from literal text; "a\x5cb" compiles to the literal "ab", not
to "a\x5cb" as the claim states. -/
theorem c3_backslash_counterexample :
    interpolatedNameTryFrom "a\\b" = .ok ⟨[.literal "ab"], 0⟩ ∧
    (Except.ok (⟨[.literal "ab"], 0⟩ : InterpolatedName) :
        Except String InterpolatedName) ≠
      .ok ⟨[.literal "a\\b"], 0⟩ := by
  exact ⟨by decide, by decide⟩

/-- C3 (amended): a backslash-escaped reference is literal text, and
compilation strips every backslash from literal text, wherever it
occurs, not only directly before a dollar sign; in particular any
dollar-free input compiles to one literal with all backslashes removed. -/
theorem c3_backslash_stripping :
    interpolatedNameTryFrom "\\$1foo$1\\$2" =
      .ok ⟨[.literal "$1foo", .reference 1, .literal "$2"], 1⟩ ∧
    interpolatedNameTryFrom "\\$1" = .ok ⟨[.literal "$1"], 0⟩ ∧
    interpolatedNameTryFrom "a\\b" = .ok ⟨[.literal "ab"], 0⟩ ∧
    (∀ s : String, s.data ≠ [] → (∀ c ∈ s.data, c ≠ '$') →
      interpolatedNameTryFrom s =
        .ok ⟨[.literal (String.mk (stripBackslashes s.data))], 0⟩) := by
  exact ⟨by decide, by decide, by decide, tryFrom_dollar_free⟩

/-- C3 witness: the general dollar-free conjunct at "x\x5cy". -/
theorem c3_backslash_stripping_witness :
    interpolatedNameTryFrom "x\\y" = .ok ⟨[.literal "xy"], 0⟩ :=
  c3_backslash_stripping.2.2.2 "x\\y" (by decide) (by decide)

/-! ## Template rendering (C7) -/

/-- An error accumulator is absorbing for the render fold. -/
theorem foldl_interpolateStep_error (refs : List String) (e : String) :
    ∀ parts : List InterpolatedNamePart,
      parts.foldl (interpolateStep refs) (.error e) = .error e := by
  intro parts
  induction parts with
  | nil => rfl
  | cons p rest ih => simpa [interpolateStep] using ih

/-- The render fold from an ok accumulator succeeds exactly when every
reference index in the remaining parts resolves into the capture list. -/
theorem foldl_interpolateStep_ok_iff (refs : List String) :
    ∀ (parts : List InterpolatedNamePart) (acc : String),
      (∃ v, parts.foldl (interpolateStep refs) (.ok acc) = .ok v) ↔
      (∀ k, InterpolatedNamePart.reference k ∈ parts → k - 1 < refs.length) := by
  intro parts
  induction parts with
  | nil =>
    intro acc
    exact iff_of_true ⟨acc, rfl⟩ (fun k hk => nomatch hk)
  | cons p rest ih =>
    intro acc
    cases p with
    | literal s =>
      rw [List.foldl_cons]
      show (∃ v, rest.foldl (interpolateStep refs) (.ok (acc ++ s)) = .ok v) ↔ _
      rw [ih (acc ++ s)]
      constructor
      · intro h k hk
        rcases List.mem_cons.mp hk with h1 | h2
        · exact nomatch h1
        · exact h k h2
      · intro h k hk
        exact h k (List.mem_cons_of_mem _ hk)
    | reference k0 =>
      rw [List.foldl_cons]
      cases hg : refs[k0 - 1]? with
      | some v0 =>
        have hstep : interpolateStep refs (.ok acc) (.reference k0) =
            .ok (acc ++ v0) := by
          simp [interpolateStep, hg]
        rw [hstep, ih (acc ++ v0)]
        have hk0 : k0 - 1 < refs.length := by
          by_contra hc
          push_neg at hc
          rw [List.getElem?_eq_none hc] at hg
          exact nomatch hg
        constructor
        · intro h k hk
          rcases List.mem_cons.mp hk with h1 | h2
          · cases h1; exact hk0
          · exact h k h2
        · intro h k hk
          exact h k (List.mem_cons_of_mem _ hk)
      | none =>
        have hstep : interpolateStep refs (.ok acc) (.reference k0) =
            .error ("Cannot find reference number " ++ toString k0) := by
          simp [interpolateStep, hg]
        rw [hstep, foldl_interpolateStep_error]
        refine iff_of_false (by simp) ?_
        intro h
        have hk0 : k0 - 1 < refs.length :=
          h k0 (List.mem_cons_self _ _)
        rw [List.getElem?_eq_getElem hk0] at hg
        exact nomatch hg

/-- Success of an Except value as a proposition. -/
theorem isOkE_false_iff (x : Except ε α) :
    isOkE x = false ↔ ¬∃ a, x = .ok a := by
  cases x <;> simp [isOkE]

/-- C7: rendering appends parts left to right and fails exactly when
some reference index (all indices being at least 1, as compilation
guarantees) exceeds the capture count; the round-trip example renders
to "foofirstbarsecond baz", and with no captures it fails. -/
theorem c7_render :
    (∀ (name : InterpolatedName) (refs : List String),
      (∀ k, InterpolatedNamePart.reference k ∈ name.parts → 1 ≤ k) →
      (isOkE (name.interpolate refs) = false ↔
        ∃ k, InterpolatedNamePart.reference k ∈ name.parts ∧
          refs.length < k)) ∧
    interpolatedNameTryFrom "foo$1bar$2 baz" =
      .ok ⟨[.literal "foo", .reference 1, .literal "bar", .reference 2,
            .literal " baz"], 2⟩ ∧
    InterpolatedName.interpolate
      ⟨[.literal "foo", .reference 1, .literal "bar", .reference 2,
        .literal " baz"], 2⟩ ["first", "second"] =
      .ok "foofirstbarsecond baz" ∧
    isOkE (InterpolatedName.interpolate
      ⟨[.literal "foo", .reference 1, .literal "bar", .reference 2,
        .literal " baz"], 2⟩ []) = false := by
  refine ⟨?_, by decide, by decide, by decide⟩
  intro name refs hpos
  rw [isOkE_false_iff]
  unfold InterpolatedName.interpolate
  constructor
  · intro h
    have hnr : ¬(∀ k, InterpolatedNamePart.reference k ∈ name.parts →
        k - 1 < refs.length) := fun hr =>
      h ((foldl_interpolateStep_ok_iff refs name.parts "").mpr hr)
    push_neg at hnr
    obtain ⟨k, hk, hlen⟩ := hnr
    have hk1 := hpos k hk
    exact ⟨k, hk, by omega⟩
  · rintro ⟨k, hk, hlen⟩ hex
    have := (foldl_interpolateStep_ok_iff refs name.parts "").mp hex k hk
    omega

/-- C7 witness: the failure characterization at a one-reference template
with an empty capture list. -/
theorem c7_render_witness :
    isOkE (InterpolatedName.interpolate ⟨[.reference 1], 1⟩ []) = false ↔
    ∃ k, InterpolatedNamePart.reference k ∈
        (⟨[.reference 1], 1⟩ : InterpolatedName).parts ∧
      List.length ([] : List String) < k :=
  c7_render.1 ⟨[.reference 1], 1⟩ []
    (by
      intro k hk
      rw [List.mem_singleton] at hk
      injection hk with h
      omega)

/-! ## Rule compilation (C5, C9) -/

/-- Collected results have the same length as their inputs. -/
theorem collectExcept_ok_length (f : α → Except String β)
    (l : List α) (r : List β) (h : collectExcept f l = .ok r) :
    r.length = l.length := by
  induction l generalizing r with
  | nil =>
    unfold collectExcept at h
    injection h with h
    subst h
    rfl
  | cons a as ih =>
    unfold collectExcept at h
    cases hfa : f a with
    | error e => rw [hfa] at h; exact nomatch h
    | ok b =>
      rw [hfa] at h
      cases hrest : collectExcept f as with
      | error e => rw [hrest] at h; exact nomatch h
      | ok bs =>
        rw [hrest] at h
        injection h with h
        subst h
        simpa using ih bs hrest

/-- Every collected output element comes from some input element. -/
theorem collectExcept_ok_mem (f : α → Except String β)
    (l : List α) (r : List β) (h : collectExcept f l = .ok r) :
    ∀ b ∈ r, ∃ a ∈ l, f a = .ok b := by
  induction l generalizing r with
  | nil =>
    unfold collectExcept at h
    injection h with h
    subst h
    intro b hb
    exact nomatch hb
  | cons a as ih =>
    unfold collectExcept at h
    cases hfa : f a with
    | error e => rw [hfa] at h; exact nomatch h
    | ok b0 =>
      rw [hfa] at h
      cases hrest : collectExcept f as with
      | error e => rw [hrest] at h; exact nomatch h
      | ok bs =>
        rw [hrest] at h
        injection h with h
        subst h
        intro b hb
        rcases List.mem_cons.mp hb with hb0 | hbs
        · exact ⟨a, List.mem_cons_self _ _, hb0 ▸ hfa⟩
        · obtain ⟨a2, ha2, hfa2⟩ := ih bs hrest b hbs
          exact ⟨a2, List.mem_cons_of_mem _ ha2, hfa2⟩

/-- Every input element of a successful collection succeeds itself. -/
theorem collectExcept_ok_all (f : α → Except String β)
    (l : List α) (r : List β) (h : collectExcept f l = .ok r) :
    ∀ a ∈ l, ∃ b, f a = .ok b := by
  induction l generalizing r with
  | nil =>
    intro a ha
    exact nomatch ha
  | cons a0 as ih =>
    unfold collectExcept at h
    cases hfa : f a0 with
    | error e => rw [hfa] at h; exact nomatch h
    | ok b0 =>
      rw [hfa] at h
      cases hrest : collectExcept f as with
      | error e => rw [hrest] at h; exact nomatch h
      | ok bs =>
        intro a ha
        rcases List.mem_cons.mp ha with ha0 | has
        · exact ⟨b0, ha0 ▸ hfa⟩
        · exact ih bs hrest a has

/-- Collection is pointwise: position i of the output is the successful
image of position i of the input. -/
theorem collectExcept_ok_get (f : α → Except String β)
    (l : List α) (r : List β) (h : collectExcept f l = .ok r) :
    ∀ i a, l.get? i = some a → ∃ b, r.get? i = some b ∧ f a = .ok b := by
  induction l generalizing r with
  | nil =>
    intro i a ha
    rw [List.get?_eq_getElem?] at ha
    simp at ha
  | cons a0 as ih =>
    unfold collectExcept at h
    cases hfa : f a0 with
    | error e => rw [hfa] at h; exact nomatch h
    | ok b0 =>
      rw [hfa] at h
      cases hrest : collectExcept f as with
      | error e => rw [hrest] at h; exact nomatch h
      | ok bs =>
        rw [hrest] at h
        injection h with h
        subst h
        intro i a ha
        cases i with
        | zero =>
          injection ha with ha
          exact ⟨b0, rfl, ha ▸ hfa⟩
        | succ j => exact ih bs hrest j a ha

/-- takeWhile stops at or before any position failing the predicate. -/
theorem takeWhile_length_le (p : α → Bool) (l : List α) :
    ∀ (i : Nat) (x : α), l.get? i = some x → p x = false →
      (l.takeWhile p).length ≤ i := by
  induction l with
  | nil =>
    intro i x hx
    rw [List.get?_eq_getElem?] at hx
    simp at hx
  | cons a as ih =>
    intro i x hx hpx
    cases i with
    | zero =>
      injection hx with hx
      subst hx
      simp [List.takeWhile_cons, hpx]
    | succ j =>
      cases hpa : p a with
      | false => simp [List.takeWhile_cons, hpa]
      | true =>
        have := ih j x hx hpx
        simp [List.takeWhile_cons, hpa]
        omega

/-- Inversion of a successful rule compilation: the topic compiled to the
mapping's pattern, the field template compiled and respects the
single-wildcard count, and every tag compiled under the same bound. -/
theorem mappingTryFrom_ok (cfg : ConfigMapping) (m : Mapping)
    (h : mappingTryFrom cfg = .ok m) :
    compileTopicPattern cfg.topic = .ok m.topic ∧
    interpolatedNameTryFrom cfg.fieldName = .ok m.fieldName ∧
    findMaxRef m.fieldName ≤
      (m.topic.filter (fun l => l = TopicLevel.singleWildcard)).length ∧
    collectExcept
      (compileTag
        (m.topic.filter (fun l => l = TopicLevel.singleWildcard)).length)
      cfg.tags = .ok m.tags := by
  unfold mappingTryFrom at h
  cases h1 : compileTopicPattern cfg.topic with
  | error e => rw [h1] at h; exact nomatch h
  | ok topic =>
    rw [h1] at h
    simp only at h
    cases h2 : interpolatedNameTryFrom cfg.fieldName with
    | error e => rw [h2] at h; exact nomatch h
    | ok name =>
      rw [h2] at h
      simp only at h
      by_cases hgt : findMaxRef name >
          (topic.filter (fun l => l = TopicLevel.singleWildcard)).length
      · rw [if_pos hgt] at h
        exact nomatch h
      · rw [if_neg hgt] at h
        cases h3 : collectExcept
            (compileTag
              (topic.filter (fun l => l = TopicLevel.singleWildcard)).length)
            cfg.tags with
        | error e => rw [h3] at h; exact nomatch h
        | ok tags =>
          rw [h3] at h
          injection h with h
          subst h
          exact ⟨rfl, rfl, Nat.le_of_not_lt hgt, h3⟩

/-- C5: rule compilation fails whenever the field-name template or any
templated tag value uses a reference index above the pattern's
single-wildcard count. -/
theorem c5_static_validation :
    ∀ (cfg : ConfigMapping) (levels : List TopicLevel),
      compileTopicPattern cfg.topic = .ok levels →
      ((∃ name, interpolatedNameTryFrom cfg.fieldName = .ok name ∧
          (levels.filter (fun l => l = TopicLevel.singleWildcard)).length <
            findMaxRef name) ∨
        (∃ tag, tag ∈ cfg.tags ∧ ∃ name,
          tagValueTryFrom tag.2 = .ok (.interpolatedStr name) ∧
          (levels.filter (fun l => l = TopicLevel.singleWildcard)).length <
            findMaxRef name)) →
      isOkE (mappingTryFrom cfg) = false := by
  intro cfg levels hc hbad
  cases hM : mappingTryFrom cfg with
  | error e => rfl
  | ok m =>
    obtain ⟨h1, h2, h3, h4⟩ := mappingTryFrom_ok cfg m hM
    rw [hc] at h1
    injection h1 with hlev
    subst hlev
    rcases hbad with ⟨name, hn, hlt⟩ | ⟨tag, htag, name, htv, hlt⟩
    · rw [hn] at h2
      injection h2 with h2
      subst h2
      omega
    · obtain ⟨b, hb⟩ := collectExcept_ok_all _ _ _ h4 tag htag
      unfold compileTag at hb
      rw [htv] at hb
      simp only at hb
      rw [if_pos (by omega)] at hb
      exact nomatch hb

/-- C5 witness: a pattern with one single wildcard and a field template
referencing index 2 fails to compile. -/
theorem c5_static_validation_witness :
    isOkE (mappingTryFrom
      ⟨"foo/+", none, "$2", ValueType.float, []⟩) = false :=
  c5_static_validation ⟨"foo/+", none, "$2", ValueType.float, []⟩
    [.literal "foo", .singleWildcard] (by decide)
    (Or.inl ⟨⟨[.reference 2], 1⟩, by decide, by decide⟩)

/-- C9: pattern compilation rejects any level mixing a wildcard with
other characters and any pattern placing the multi-wildcard before the
final level; the three concrete bad patterns fail and a final-position
multi-wildcard compiles. -/
theorem c9_pattern_validation :
    (∀ s : String, s ≠ "+" → s ≠ "#" →
      (s.data.contains '+' || s.data.contains '#') = true →
      isOkE (topicLevelTryFrom s) = false) ∧
    (∀ (topic : String) (i : Nat),
      (splitTopic topic).get? i = some "#" →
      i + 1 < (splitTopic topic).length →
      isOkE (compileTopicPattern topic) = false) ∧
    isOkE (compileTopicPattern "foo/#/bar") = false ∧
    isOkE (compileTopicPattern "foo/bar#") = false ∧
    isOkE (compileTopicPattern "foo/bar+baz/quux") = false ∧
    compileTopicPattern "foo/bar/#" =
      .ok [.literal "foo", .literal "bar", .multiWildcard] ∧
    compileTopicPattern "#" = .ok [.multiWildcard] := by
  refine ⟨?_, ?_, by decide, by decide, by decide, by decide, by decide⟩
  · intro s h1 h2 h3
    unfold topicLevelTryFrom
    rw [if_neg h1, if_neg h2, if_pos h3]
    rfl
  · intro topic i hi hlen
    unfold compileTopicPattern
    cases hC : collectExcept topicLevelTryFrom (splitTopic topic) with
    | error e => rfl
    | ok lvls =>
      obtain ⟨b, hbi, hfb⟩ := collectExcept_ok_get _ _ _ hC i "#" hi
      have hb : b = TopicLevel.multiWildcard := by
        have : (Except.ok TopicLevel.multiWildcard :
            Except String TopicLevel) = .ok b := hfb
        injection this with h
        exact h.symm
      subst hb
      have htw : (lvls.takeWhile
          (fun l => l ≠ TopicLevel.multiWildcard)).length ≤ i :=
        takeWhile_length_le _ lvls i _ hbi (by simp)
      have hll : lvls.length = (splitTopic topic).length :=
        collectExcept_ok_length _ _ _ hC
      simp only
      rw [if_pos (by omega)]
      rfl

/-- C9 witness: the mixed-level conjunct applied to "bar#". -/
theorem c9_pattern_validation_witness :
    isOkE (topicLevelTryFrom "bar#") = false :=
  c9_pattern_validation.1 "bar#" (by decide) (by decide) (by decide)

/-! ## Render safety for compiled rules (C6) -/

/-- Every reference index the scanner emits is at least 1 (index 0 is
rejected during compilation). -/
theorem tryFromAux_refs_pos (cs : List Char) :
    ∀ (fuel pos : Nat) (acc : List InterpolatedNamePart) (n : Nat)
      (parts : List InterpolatedNamePart) (m : Nat),
      (∀ k, InterpolatedNamePart.reference k ∈ acc → 1 ≤ k) →
      interpolatedNameTryFromAux cs fuel pos acc n = .ok (parts, m) →
      ∀ k, InterpolatedNamePart.reference k ∈ parts → 1 ≤ k := by
  intro fuel
  induction fuel with
  | zero =>
    intro pos acc n parts m _ h
    exact nomatch h
  | succ fuel ih =>
    intro pos acc n parts m hacc h
    unfold interpolatedNameTryFromAux at h
    cases hfm : findRefMatch cs pos with
    | none =>
      rw [hfm] at h
      by_cases hpos : pos < cs.length
      · rw [if_pos hpos] at h
        injection h with h
        injection h with h hm
        subst h
        intro k hk
        rcases List.mem_append.mp hk with hk1 | hk2
        · exact hacc k hk1
        · rw [List.mem_singleton] at hk2
          exact nomatch hk2
      · rw [if_neg hpos] at h
        injection h with h
        injection h with h hm
        subst h
        exact hacc
    | some g =>
      obtain ⟨g2s, g2e, ds⟩ := g
      rw [hfm] at h
      simp only at h
      by_cases hz : digitsToNat ds = 0
      · rw [if_pos hz] at h
        exact nomatch h
      · rw [if_neg hz] at h
        refine ih g2e _ (n + 1) parts m ?_ h
        intro k hk
        rcases List.mem_append.mp hk with hk1 | hk2
        · by_cases hps : pos < g2s
          · rw [if_pos hps] at hk1
            rcases List.mem_append.mp hk1 with hk3 | hk4
            · exact hacc k hk3
            · rw [List.mem_singleton] at hk4
              exact nomatch hk4
          · rw [if_neg hps] at hk1
            exact hacc k hk1
        · rw [List.mem_singleton] at hk2
          injection hk2 with hk2
          omega

/-- Compiled templates only contain reference indices of at least 1. -/
theorem tryFrom_refs_pos (s : String) (name : InterpolatedName)
    (h : interpolatedNameTryFrom s = .ok name) :
    ∀ k, InterpolatedNamePart.reference k ∈ name.parts → 1 ≤ k := by
  unfold interpolatedNameTryFrom at h
  cases haux : interpolatedNameTryFromAux s.data (s.data.length + 1) 0 [] 0 with
  | error e => rw [haux] at h; exact nomatch h
  | ok pr =>
    obtain ⟨parts, nrefs⟩ := pr
    rw [haux] at h
    injection h with h
    subst h
    exact tryFromAux_refs_pos s.data _ 0 [] 0 parts nrefs
      (fun k hk => nomatch hk) haux

/-- The running maximum of the find_max_ref fold never decreases. -/
theorem findMaxRef_foldl_ge_init (parts : List InterpolatedNamePart) :
    ∀ init : Nat,
      init ≤ parts.foldl
        (fun maxRef part =>
          match part with
          | InterpolatedNamePart.reference num =>
            if num > maxRef then num else maxRef
          | _ => maxRef) init := by
  induction parts with
  | nil => intro init; exact Nat.le_refl init
  | cons p rest ih =>
    intro init
    refine Nat.le_trans ?_ (ih _)
    cases p with
    | literal s => exact Nat.le_refl init
    | reference num =>
      by_cases hn : num > init
      · simp only [if_pos hn]
        omega
      · simp only [if_neg hn]
        omega

/-- Every reference index in a template is bounded by find_max_ref. -/
theorem findMaxRef_ge (name : InterpolatedName) :
    ∀ k, InterpolatedNamePart.reference k ∈ name.parts →
      k ≤ findMaxRef name := by
  unfold findMaxRef
  generalize hinit : (0 : Nat) = init
  clear hinit
  induction name.parts generalizing init with
  | nil =>
    intro k hk
    exact nomatch hk
  | cons p rest ih =>
    intro k hk
    rcases List.mem_cons.mp hk with hk1 | hk2
    · subst hk1
      refine Nat.le_trans ?_ (findMaxRef_foldl_ge_init rest _)
      simp only [List.foldl_cons]
      by_cases hn : k > init
      · simp only [if_pos hn]
        omega
      · simp only [if_neg hn]
        omega
    · simp only [List.foldl_cons]
      exact ih _ k hk2

/-- For a matching topic against a pattern whose multi-wildcard (if any)
is in final position, the capture list length equals the number of
single-wildcard levels. -/
theorem matches_refValues_length (p : List TopicLevel) :
    ∀ t : List String,
      topicMatches p t = true →
      p.length - 1 ≤
        (p.takeWhile (fun l => l ≠ TopicLevel.multiWildcard)).length →
      (referenceValues p t).length =
        (p.filter (fun l => l = TopicLevel.singleWildcard)).length := by
  induction p with
  | nil =>
    intro t _ _
    simp [referenceValues]
  | cons l ps ih =>
    intro t hm hml
    cases l with
    | singleWildcard =>
      cases t with
      | nil => simp [topicMatches] at hm
      | cons a as =>
        have hm2 : topicMatches ps as = true := hm
        have hstep : (TopicLevel.singleWildcard :: ps).takeWhile
            (fun l => l ≠ TopicLevel.multiWildcard) =
            TopicLevel.singleWildcard ::
              ps.takeWhile (fun l => l ≠ TopicLevel.multiWildcard) := rfl
        rw [hstep, List.length_cons, List.length_cons] at hml
        have hrec := ih as hm2 (by omega)
        show (a :: referenceValues ps as).length =
          (TopicLevel.singleWildcard ::
            ps.filter (fun l => l = TopicLevel.singleWildcard)).length
        rw [List.length_cons, List.length_cons, hrec]
    | multiWildcard =>
      have hstep : (TopicLevel.multiWildcard :: ps).takeWhile
          (fun l => l ≠ TopicLevel.multiWildcard) = [] := rfl
      rw [hstep, List.length_cons] at hml
      have hps : ps = [] := by
        have hl : ps.length = 0 := by
          simp only [List.length_nil] at hml
          omega
        exact List.length_eq_zero.mp hl
      subst hps
      cases t with
      | nil => rfl
      | cons a as => simp [referenceValues]
    | literal s =>
      cases t with
      | nil => simp [topicMatches] at hm
      | cons a as =>
        by_cases hsa : s = a
        · subst hsa
          have hm2 : topicMatches ps as = true := by
            simpa [topicMatches] using hm
          have hstep : (TopicLevel.literal s :: ps).takeWhile
              (fun l => l ≠ TopicLevel.multiWildcard) =
              TopicLevel.literal s ::
                ps.takeWhile (fun l => l ≠ TopicLevel.multiWildcard) := rfl
          rw [hstep, List.length_cons, List.length_cons] at hml
          exact ih as hm2 (by omega)
        · simp [topicMatches, hsa] at hm

/-- A successful pattern compilation leaves the multi-wildcard (if any)
only in final position, in takeWhile form. -/
theorem compileTopicPattern_ok_multiLast (topic : String)
    (levels : List TopicLevel)
    (h : compileTopicPattern topic = .ok levels) :
    levels.length - 1 ≤
      (levels.takeWhile (fun l => l ≠ TopicLevel.multiWildcard)).length := by
  unfold compileTopicPattern at h
  cases hC : collectExcept topicLevelTryFrom (splitTopic topic) with
  | error e => rw [hC] at h; exact nomatch h
  | ok lvls =>
    rw [hC] at h
    simp only at h
    by_cases hlt : (lvls.takeWhile
        (fun l => l ≠ TopicLevel.multiWildcard)).length < lvls.length - 1
    · rw [if_pos hlt] at h
      exact nomatch h
    · rw [if_neg hlt] at h
      injection h with h
      subst h
      omega

/-- Success of an Except value, positively. -/
theorem isOkE_true_iff (x : Except ε α) :
    isOkE x = true ↔ ∃ a, x = .ok a := by
  cases x <;> simp [isOkE]

/-- An interpolated tag value in a compiled tag list came from the tag
compiler with its reference check passed. -/
theorem compileTag_ok_interp_inv (maxInterpRef : Nat)
    (tag : String × ConfigTagValue) (tagName : String)
    (name : InterpolatedName)
    (h : compileTag maxInterpRef tag = .ok (tagName, .interpolatedStr name)) :
    tagValueTryFrom tag.2 = .ok (.interpolatedStr name) ∧
    findMaxRef name ≤ maxInterpRef := by
  unfold compileTag at h
  cases htv : tagValueTryFrom tag.2 with
  | error e => rw [htv] at h; exact nomatch h
  | ok v =>
    rw [htv] at h
    cases v with
    | interpolatedStr nm =>
      simp only at h
      by_cases hgt : findMaxRef nm > maxInterpRef
      · rw [if_pos hgt] at h
        exact nomatch h
      · rw [if_neg hgt] at h
        injection h with h
        have hnm : nm = name := by
          have h2 := congrArg Prod.snd h
          simpa using h2
        subst hnm
        exact ⟨rfl, Nat.le_of_not_lt hgt⟩
    | literal v0 =>
      simp only at h
      injection h with h
      have h2 := congrArg Prod.snd h
      simp at h2

/-- An interpolated tag value arises only from a compiled Text template. -/
theorem tagValueTryFrom_interp_inv (tv : ConfigTagValue)
    (name : InterpolatedName)
    (h : tagValueTryFrom tv = .ok (.interpolatedStr name)) :
    interpolatedNameTryFrom tv.value = .ok name := by
  unfold tagValueTryFrom at h
  cases htype : tv.type with
  | text =>
    rw [htype] at h
    simp only at h
    cases hi : interpolatedNameTryFrom tv.value with
    | error e => rw [hi] at h; exact nomatch h
    | ok interp =>
      rw [hi] at h
      simp only at h
      cases hps : interp.parts with
      | nil =>
        rw [hps] at h
        simp only at h
        injection h with h
        injection h with h
        subst h
        rfl
      | cons p0 rest =>
        cases p0 with
        | literal l =>
          cases rest with
          | nil =>
            rw [hps] at h
            simp only at h
            injection h with h
            exact nomatch h
          | cons p1 rest2 =>
            rw [hps] at h
            simp only at h
            injection h with h
            injection h with h
            subst h
            rfl
        | reference num =>
          rw [hps] at h
          simp only at h
          injection h with h
          injection h with h
          subst h
          rfl
  | boolean =>
    rw [htype] at h
    simp only at h
    cases hs : strToInfluxType tv.value ValueType.boolean with
    | error e => rw [hs] at h; exact nomatch h
    | ok v =>
      rw [hs] at h
      simp only at h
      injection h with h
      exact nomatch h
  | float =>
    rw [htype] at h
    simp only at h
    cases hs : strToInfluxType tv.value ValueType.float with
    | error e => rw [hs] at h; exact nomatch h
    | ok v =>
      rw [hs] at h
      simp only at h
      injection h with h
      exact nomatch h
  | signedInteger =>
    rw [htype] at h
    simp only at h
    cases hs : strToInfluxType tv.value ValueType.signedInteger with
    | error e => rw [hs] at h; exact nomatch h
    | ok v =>
      rw [hs] at h
      simp only at h
      injection h with h
      exact nomatch h
  | unsignedInteger =>
    rw [htype] at h
    simp only at h
    cases hs : strToInfluxType tv.value ValueType.unsignedInteger with
    | error e => rw [hs] at h; exact nomatch h
    | ok v =>
      rw [hs] at h
      simp only at h
      injection h with h
      exact nomatch h

/-- A template whose indices are positive and bounded by the capture
count renders successfully. -/
theorem interpolate_ok_of_bounded (name : InterpolatedName)
    (refs : List String)
    (hpos : ∀ k, InterpolatedNamePart.reference k ∈ name.parts → 1 ≤ k)
    (hbound : ∀ k, InterpolatedNamePart.reference k ∈ name.parts →
      k ≤ refs.length) :
    isOkE (name.interpolate refs) = true := by
  rw [isOkE_true_iff]
  unfold InterpolatedName.interpolate
  rw [foldl_interpolateStep_ok_iff]
  intro k hk
  have h1 := hpos k hk
  have h2 := hbound k hk
  omega

/-- C6: for every rule that passed compile-time validation and every
topic its pattern matches, rendering the field name and every templated
tag value with the derived captures succeeds: the capture count equals
the single-wildcard count, which bounds every reference index. -/
theorem c6_render_safety :
    ∀ (cfg : ConfigMapping) (m : Mapping) (topic : String),
      mappingTryFrom cfg = .ok m →
      topicMatches m.topic (splitTopic topic) = true →
      isOkE (m.fieldName.interpolate
        (referenceValues m.topic (splitTopic topic))) = true ∧
      ∀ tagName name,
        (tagName, TagValue.interpolatedStr name) ∈ m.tags →
        isOkE (name.interpolate
          (referenceValues m.topic (splitTopic topic))) = true := by
  intro cfg m topic hM hmatch
  obtain ⟨h1, h2, h3, h4⟩ := mappingTryFrom_ok cfg m hM
  have hml := compileTopicPattern_ok_multiLast cfg.topic m.topic h1
  have hlen := matches_refValues_length m.topic (splitTopic topic) hmatch hml
  constructor
  · refine interpolate_ok_of_bounded m.fieldName _ (tryFrom_refs_pos _ _ h2)
      ?_
    intro k hk
    have := findMaxRef_ge m.fieldName k hk
    omega
  · intro tagName name htag
    obtain ⟨tag, -, htc⟩ := collectExcept_ok_mem _ _ _ h4 _ htag
    obtain ⟨htv, hbound⟩ := compileTag_ok_interp_inv _ tag tagName name htc
    have hcompiled := tagValueTryFrom_interp_inv tag.2 name htv
    refine interpolate_ok_of_bounded name _
      (tryFrom_refs_pos _ _ hcompiled) ?_
    intro k hk
    have := findMaxRef_ge name k hk
    omega

/-- C6 witness: the spec dispatcher scenario rule on a matching topic. -/
theorem c6_render_safety_witness :
    isOkE (InterpolatedName.interpolate
      ⟨[.literal "temp_", .reference 1], 1⟩
      (referenceValues
        [.literal "sensors", .singleWildcard, .literal "temp"]
        (splitTopic "sensors/kitchen/temp"))) = true :=
  (c6_render_safety ⟨"sensors/+/temp", none, "temp_$1", ValueType.float, []⟩
    ⟨[.literal "sensors", .singleWildcard, .literal "temp"],
      PayloadSpec.raw, ⟨[.literal "temp_", .reference 1], 1⟩,
      ValueType.float, []⟩
    "sensors/kitchen/temp" rfl (by decide)).1

/-! ## Value coercion (C8) -/

/-- C8: coercion follows the declared-type table for both sources:
string Boolean accepts exactly "true"/"false", string Float and the two
integer widths use standard parses (with "-1" failing UnsignedInteger),
string Text is identity; numeric nodes convert to integer targets only
within range (the negative-integer node variant never converts to u64,
a u64 node above the i64 range never converts to i64, a float node never
converts to an integer), and Text stringifies string, boolean and
numeric nodes while rejecting null, arrays and objects. -/
theorem c8_coercion_table :
    (∀ s : String, s ≠ "true" → s ≠ "false" →
      isOkE (strToInfluxType s ValueType.boolean) = false) ∧
    strToInfluxType "true" ValueType.boolean = .ok (.boolean true) ∧
    strToInfluxType "false" ValueType.boolean = .ok (.boolean false) ∧
    strToInfluxType "3.14" ValueType.float = .ok (.float (157 / 50 : Rat)) ∧
    isOkE (strToInfluxType "-1" ValueType.unsignedInteger) = false ∧
    strToInfluxType "-1" ValueType.signedInteger =
      .ok (.signedInteger (-1)) ∧
    (∀ s : String, strToInfluxType s ValueType.text = .ok (.text s)) ∧
    (∀ i : Int, isOkE (Json.toInfluxType (.num (.int i))
      ValueType.unsignedInteger) = false) ∧
    (∀ n : Nat, Json.toInfluxType (.num (.uint n))
      ValueType.unsignedInteger = .ok (.unsignedInteger n)) ∧
    (∀ i : Int, Json.toInfluxType (.num (.int i))
      ValueType.signedInteger = .ok (.signedInteger i)) ∧
    (∀ n : Nat, 2 ^ 63 ≤ n → isOkE (Json.toInfluxType (.num (.uint n))
      ValueType.signedInteger) = false) ∧
    (∀ q : Rat, isOkE (Json.toInfluxType (.num (.float q))
      ValueType.signedInteger) = false) ∧
    (∀ b : Bool, Json.toInfluxType (.bool b) ValueType.boolean =
      .ok (.boolean b)) ∧
    (∀ s : String, Json.toInfluxType (.str s) ValueType.text =
      .ok (.text s)) ∧
    (∀ b : Bool, Json.toInfluxType (.bool b) ValueType.text =
      .ok (.text (toString b))) ∧
    (∀ n : JsonNumber, Json.toInfluxType (.num n) ValueType.text =
      .ok (.text n.toStr)) ∧
    isOkE (Json.toInfluxType .null ValueType.text) = false ∧
    (∀ elems, isOkE (Json.toInfluxType (.arr elems) ValueType.text) =
      false) ∧
    (∀ fields, isOkE (Json.toInfluxType (.obj fields) ValueType.text) =
      false) := by
  refine ⟨?_, by decide, by decide, ?_, by decide, by decide,
    fun s => rfl, fun i => rfl, fun n => rfl, fun i => rfl, ?_,
    fun q => rfl, fun b => by cases b <;> rfl, fun s => rfl,
    fun b => by cases b <;> rfl, fun n => rfl, rfl,
    fun elems => rfl, fun fields => rfl⟩
  · intro s h1 h2
    show isOkE
      (if s = "true" then Except.ok (InfluxType.boolean true)
        else if s = "false" then Except.ok (InfluxType.boolean false)
        else Except.error ("Value " ++ s ++ " is not a valid boolean")) =
      false
    rw [if_neg h1, if_neg h2]
    rfl
  · have hparse : parseF64 "3.14" = some ((157 : Rat) / 50) := by
      show some (((3 : Nat) : Rat) + ((14 : Nat) : Rat) / (10 : Rat) ^ 2) =
        some ((157 : Rat) / 50)
      norm_num
    show (match parseF64 "3.14" with
      | some v => Except.ok (InfluxType.float v)
      | none => Except.error "invalid float literal") =
      .ok (.float (157 / 50 : Rat))
    rw [hparse]
  · intro n hn
    have h1 : JsonNumber.asI64 (.uint n) = none := by
      show (if n ≤ 2 ^ 63 - 1 then some (n : Int) else none) = none
      rw [if_neg (by omega)]
    show isOkE
      (match JsonNumber.asI64 (.uint n) with
        | some v => Except.ok (InfluxType.signedInteger v)
        | none => Except.error "Cannot be expressed as i64") = false
    rw [h1]
    rfl

/-- C8 witness: the Boolean string conjunct applied to "yes". -/
theorem c8_coercion_table_witness :
    isOkE (strToInfluxType "yes" ValueType.boolean) = false :=
  c8_coercion_table.1 "yes" (by decide) (by decide)

/-! ## Timestamp fallback (C10) -/

/-- C10 counterexample: a rule whose configured timestamp selector finds
no node makes the whole message fail with an error instead of receiving
the wall-clock time, contradicting the third case of the claim. -/
theorem c10_missing_timestamp_counterexample :
    isOkE (payloadValueTimestamp
      ⟨[.literal "t"],
        PayloadSpec.json (fun j => [j]) (some (fun _ => [])),
        ⟨[.literal "f"], 0⟩, ValueType.text, []⟩
      "x" (fun _ => .ok (Json.str "v"))) = false := by
  rfl

/-- C10 (amended): the dispatcher substitutes the current wall-clock
time exactly when no timestamp was extracted because the rule is a
raw-payload rule or no timestamp path is configured; when a timestamp
path is configured but yields no node the message fails with an error
instead. -/
theorem c10_wallclock_substitution :
    (∀ (m : Mapping) (payload : String)
        (parse : String → Except String Json) (v : InfluxType)
        (ts : Option Nat) (now : Nat),
      m.payload = PayloadSpec.raw →
      payloadValueTimestamp m payload parse = .ok (v, ts) →
      dispatchTimestamp ts now = now) ∧
    (∀ (m : Mapping) (payload : String)
        (parse : String → Except String Json) (vsel : JsonSelector)
        (v : InfluxType) (ts : Option Nat) (now : Nat),
      m.payload = PayloadSpec.json vsel none →
      payloadValueTimestamp m payload parse = .ok (v, ts) →
      dispatchTimestamp ts now = now) ∧
    (∀ (m : Mapping) (payload : String)
        (parse : String → Except String Json) (vsel sel : JsonSelector)
        (root : Json),
      m.payload = PayloadSpec.json vsel (some sel) →
      parse payload = .ok root →
      sel root = [] →
      isOkE (payloadValueTimestamp m payload parse) = false) := by
  refine ⟨?_, ?_, ?_⟩
  · intro m payload parse v ts now hraw hok
    unfold payloadValueTimestamp at hok
    rw [hraw] at hok
    simp only at hok
    cases hs : strToInfluxType payload m.valueType with
    | error e => rw [hs] at hok; exact nomatch hok
    | ok v2 =>
      rw [hs] at hok
      simp only at hok
      injection hok with hok
      have hts := congrArg Prod.snd hok
      simp only at hts
      rw [← hts]
      rfl
  · intro m payload parse vsel v ts now hjson hok
    unfold payloadValueTimestamp at hok
    rw [hjson] at hok
    simp only at hok
    cases hp : parse payload with
    | error e => rw [hp] at hok; exact nomatch hok
    | ok root =>
      rw [hp] at hok
      simp only at hok
      cases hh : (vsel root).head? with
      | none => rw [hh] at hok; exact nomatch hok
      | some node =>
        rw [hh] at hok
        simp only at hok
        cases hc : node.toInfluxType m.valueType with
        | error e => rw [hc] at hok; exact nomatch hok
        | ok v2 =>
          rw [hc] at hok
          simp only [extractTimestamp] at hok
          injection hok with hok
          have hts := congrArg Prod.snd hok
          simp only at hts
          rw [← hts]
          rfl
  · intro m payload parse vsel sel root hjson hparse hsel
    unfold payloadValueTimestamp
    rw [hjson]
    simp only
    rw [hparse]
    simp only
    cases hh : (vsel root).head? with
    | none => rfl
    | some node =>
      show isOkE (match node.toInfluxType m.valueType with
        | Except.error e => Except.error e
        | Except.ok v =>
          match extractTimestamp (some sel) root with
          | Except.error e => Except.error e
          | Except.ok ts => Except.ok (v, ts)) = false
      cases hc : node.toInfluxType m.valueType with
      | error e => rfl
      | ok v2 =>
        have hts : extractTimestamp (some sel) root =
            .error "Cannot find timestamp in payload" := by
          show (match (sel root).head? with
            | none => Except.error "Cannot find timestamp in payload"
            | some node =>
              match node.asU64node with
              | some ts => Except.ok (some ts)
              | none =>
                Except.error "cannot be converted to a timestamp") =
            Except.error "Cannot find timestamp in payload"
          rw [hsel]
          rfl
        show isOkE (match extractTimestamp (some sel) root with
          | Except.error e => Except.error e
          | Except.ok ts => Except.ok (v2, ts)) = false
        rw [hts]
        rfl

/-- C10 witness: a raw rule on a successfully coerced payload receives
the wall-clock time. -/
theorem c10_wallclock_substitution_witness :
    dispatchTimestamp none 42 = 42 :=
  c10_wallclock_substitution.1
    ⟨[.literal "t"], PayloadSpec.raw, ⟨[.literal "f"], 0⟩,
      ValueType.text, []⟩
    "x" (fun _ => .error "unused") (.text "x") none 42 rfl rfl

end Mqtt2db
